import Mathlib

set_option maxRecDepth 100000

/-!
Verification development for the k8s-flowtop resource normalization and
view-model engine.

The definitions below are a shallow embedding of the Go sources
`internal/types/types.go`, `internal/k8s/client.go` and
`internal/tui/model.go`, together with the behaviour of the external
collaborators they call (`robfig/cron/v3`'s five-field standard schedule
evaluation, and the parts of Go's `time` package the code uses).

Modelling conventions, stated once here:

* Instants on the cron timeline are whole minutes since the Unix epoch
  (`Nat`); `robfig/cron` with the options `Minute|Hour|Dom|Month|Dow` used by
  the repository only ever produces minute-aligned trigger times, and
  `Next` returns the first matching minute-aligned instant strictly after
  its argument, so minute granularity is exact for every value the program
  compares.  Timestamps carried on records (start/end times, durations) are
  `Int` ticks; their unit is irrelevant to the claims.
* Go's `time.Now()` is an implicit input of the program; every function of
  the source that reads the clock takes the instant read as an explicit
  argument here.
* Go's `time.LoadLocation` consults the tz database; it is modelled by a
  fixed table of the fixed-offset zones exercised in this development
  (`UTC`, `Asia/Tokyo`, neither of which has daylight saving), every other
  name being treated as failing to resolve.
* Go map iteration order is unspecified (and deliberately randomised).  The
  one place the source iterates a map whose order is observable — appending
  the orphan groups left in `childrenMap` — therefore takes the enumeration
  order of the remaining keys as an explicit argument.
* `sort.Slice` is modelled by a stable insertion sort
  (`Mathlib`'s `List.insertionSort` over the reflexive complement of the Go
  comparator).  For slices shorter than 12 elements Go's `sort.Slice` runs
  exactly insertion sort, so every concrete evaluation below matches the
  Go output; in general both are stable sorts of the same strict weak
  order, hence equal.
-/

/-! ## internal/types/types.go -/

/-- `ResourceKind` from `internal/types/types.go`. -/
inductive ResourceKind where
  | KindJob
  | KindCronJob
  | KindWorkflow
  | KindCronWorkflow
  | KindSensor
  | KindEventSource
deriving DecidableEq, Repr

/-- `ResourceStatus` from `internal/types/types.go`.  In Go this is a string
type; every value the program constructs is one of these five constants, and
`statusPriority`'s `default` arm collapses everything that is not one of the
first four to the `Unknown` bucket, so the five-constructor type is exact for
the program's reachable states. -/
inductive ResourceStatus where
  | StatusRunning
  | StatusSucceeded
  | StatusFailed
  | StatusPending
  | StatusUnknown
deriving DecidableEq, Repr

/-- `DAGNode` from `internal/types/types.go`.  The Go field `Type` is named
`NodeType` here because `Type` is reserved in Lean. -/
structure DAGNode where
  Name : String := ""
  NodeType : String := ""
  Phase : String := ""
deriving DecidableEq, Repr

/-- `AsyncResource` from `internal/types/types.go`.  Field defaults are the
Go zero values, so record literals below read like the Go struct literals.
`Throughput float64` is omitted: it is never written nor read by any code a
claim touches, and floating point is outside the embedding. -/
structure AsyncResource where
  Kind : ResourceKind := .KindJob
  Name : String := ""
  Namespace : String := ""
  Status : ResourceStatus := .StatusUnknown
  StartTime : Option Int := none
  EndTime : Option Int := none
  Duration : Int := 0
  Message : String := ""
  Retries : Int := 0
  MaxRetries : Int := 0
  SuccessCount : Int := 0
  FailureCount : Int := 0
  Schedule : String := ""
  Timezone : String := ""
  LastRun : Option Int := none
  NextRun : Option Int := none
  QueueDepth : Int := 0
  ParentKind : String := ""
  ParentName : String := ""
  DAGNodes : List DAGNode := []
  EventSourceName : String := ""
  EventNames : List String := []
  EventType : String := ""
  TriggerNames : List String := []
deriving DecidableEq, Repr

/-- `ViewMode` from `internal/types/types.go`. -/
inductive ViewMode where
  | ViewAll
  | ViewJobs
  | ViewWorkflows
  | ViewEvents
deriving DecidableEq, Repr

/-- `SortMode` from `internal/tui/model.go`. -/
inductive SortMode where
  | SortByStatus
  | SortByNextRun
deriving DecidableEq, Repr

/-! ## Calendar arithmetic (Go `time` package, UTC / fixed-offset wall clock)

`robfig/cron`'s `Next` advances a `time.Time` by whole months, days, hours
and minutes; the functions here provide the same civil-calendar arithmetic
over minutes-since-epoch. -/

/-- Leap-year rule of the proleptic Gregorian calendar (Go `time`). -/
def isLeapYear (y : Nat) : Bool :=
  (y % 4 == 0 && y % 100 != 0) || y % 400 == 0

/-- Number of days of month `m` (1-based) of year `y`. -/
def daysInMonth (y m : Nat) : Nat :=
  if m = 2 then (if isLeapYear y then 29 else 28)
  else if m = 4 ∨ m = 6 ∨ m = 9 ∨ m = 11 then 30
  else 31

/-- Number of days of year `y`. -/
def daysInYear (y : Nat) : Nat := if isLeapYear y then 366 else 365

/-- Strip whole years off a day count, starting at `y`; returns the year and
the remaining day-of-year (0-based).  Fuel-bounded structural recursion. -/
def yearFromDays : Nat → Nat → Nat → Nat × Nat
  | 0, y, d => (y, d)
  | fuel + 1, y, d =>
    if d < daysInYear y then (y, d) else yearFromDays fuel (y + 1) (d - daysInYear y)

/-- Strip whole months off a day-of-year, starting at month `m`; returns the
month and the day of month (1-based). -/
def monthFromDays : Nat → Nat → Nat → Nat → Nat × Nat
  | 0, _, m, d => (m, d + 1)
  | fuel + 1, y, m, d =>
    if d < daysInMonth y m then (m, d + 1) else monthFromDays fuel y (m + 1) (d - daysInMonth y m)

/-- Civil date (year, month, day) of a day count since 1970-01-01. -/
def civilFromDays (days : Nat) : Nat × Nat × Nat :=
  let yd := yearFromDays 10000 1970 days
  let md := monthFromDays 12 yd.1 1 yd.2
  (yd.1, md.1, md.2)

/-- Days from 1970-01-01 to `y`-01-01 (for `y ≥ 1970`). -/
def daysBeforeYear : Nat → Nat → Nat
  | 0, _ => 0
  | fuel + 1, y => if y ≤ 1970 then 0 else daysInYear (y - 1) + daysBeforeYear fuel (y - 1)

/-- Days from `y`-01-01 to `y`-`m`-01 (1-based `m`). -/
def daysBeforeMonth (y : Nat) : Nat → Nat
  | 0 => 0
  | m + 1 => if m + 1 ≤ 1 then 0 else daysInMonth y m + daysBeforeMonth y m

/-- Day count since 1970-01-01 of the civil date (`y`, `m`, `d`). -/
def daysFromCivil (y m d : Nat) : Nat :=
  daysBeforeYear y y + daysBeforeMonth y m + (d - 1)

/-- Broken-down wall-clock view of a minute instant, as `robfig/cron` reads
it off a `time.Time`: Go weekday numbering (Sunday = 0; 1970-01-01 was a
Thursday = 4). -/
structure DateT where
  year : Nat
  month : Nat
  day : Nat
  hour : Nat
  minute : Nat
  weekday : Nat
deriving DecidableEq, Repr

/-- Decompose a minutes-since-epoch instant into its wall-clock fields. -/
def dateOfMinutes (t : Nat) : DateT :=
  let days := t / 1440
  let c := civilFromDays days
  { year := c.1, month := c.2.1, day := c.2.2
    hour := (t / 60) % 24, minute := t % 60, weekday := (days + 4) % 7 }

/-- First minute of the month following the month containing `t`
(`time.Date(y, m, 1, 0, 0, 0, 0, loc).AddDate(0, 1, 0)` in `Next`). -/
def startOfNextMonth (t : Nat) : Nat :=
  let dt := dateOfMinutes t
  if dt.month = 12 then daysFromCivil (dt.year + 1) 1 1 * 1440
  else daysFromCivil dt.year (dt.month + 1) 1 * 1440

/-- First minute of the day following the day containing `t`. -/
def startOfNextDay (t : Nat) : Nat := (t / 1440 + 1) * 1440

/-- First minute of the hour following the hour containing `t`. -/
def startOfNextHour (t : Nat) : Nat := (t / 60 + 1) * 60

/-! ## Schedule Evaluator (`robfig/cron/v3` as instantiated by the repo)

`model.go` builds `cron.NewParser(cron.Minute | cron.Hour | cron.Dom |
cron.Month | cron.Dow)`: a five-field standard cron expression with no
seconds field and no `@`-descriptors.  The definitions below follow
`robfig/cron`'s `parser.go` (`getField`/`getRange`/`parseIntOrName`) and
`spec.go` (`SpecSchedule.Next`, `dayMatches`) for exactly that option set. -/

/-- A parsed five-field schedule.  Each field is the list of matching values;
`domStar`/`dowStar` record `robfig/cron`'s star bit, which changes the
day-matching rule. -/
structure CronSchedule where
  minutes : List Nat
  hours : List Nat
  dom : List Nat
  months : List Nat
  dow : List Nat
  domStar : Bool
  dowStar : Bool
deriving DecidableEq, Repr

/-- Bounds and the name table of one cron field (`robfig/cron` `bounds`). -/
structure CronBounds where
  lo : Nat
  hi : Nat
  names : List (String × Nat)
deriving Repr

/-- Month-name table of `robfig/cron`. -/
def monthNames : List (String × Nat) :=
  [("jan", 1), ("feb", 2), ("mar", 3), ("apr", 4), ("may", 5), ("jun", 6),
   ("jul", 7), ("aug", 8), ("sep", 9), ("oct", 10), ("nov", 11), ("dec", 12)]

/-- Day-of-week name table of `robfig/cron`. -/
def dowNames : List (String × Nat) :=
  [("sun", 0), ("mon", 1), ("tue", 2), ("wed", 3), ("thu", 4), ("fri", 5), ("sat", 6)]

/-- Split a character list at every separator character, keeping empty
pieces, as Go's `strings.Split` does for a one-character separator.  (The
core `String.splitOn` is defined by well-founded recursion, which the kernel
cannot evaluate; this structural version is used instead.) -/
def splitCharsBy (p : Char → Bool) : List Char → List (List Char)
  | [] => [[]]
  | c :: cs =>
    let r := splitCharsBy p cs
    if p c then [] :: r
    else
      match r with
      | [] => [[c]]
      | h :: t => (c :: h) :: t

/-- Split a string at every occurrence of the character `sep`. -/
def splitStr (sep : Char) (s : String) : List String :=
  (splitCharsBy (· == sep) s.data).map String.mk

/-- Split a string at whitespace and drop the empty pieces
(Go `strings.Fields`). -/
def fieldsStr (s : String) : List String :=
  ((splitCharsBy Char.isWhitespace s.data).map String.mk).filter (· ≠ "")

/-- Value of a nonempty all-digit character list, most significant first. -/
def digitsToNat (l : List Char) : Nat :=
  l.foldl (fun acc c => acc * 10 + (c.toNat - 48)) 0

/-- Parse an unsigned decimal integer (`strconv.ParseUint`): nonempty, digits
only. -/
def strToNat (s : String) : Option Nat :=
  if s.data ≠ [] ∧ s.data.all Char.isDigit then some (digitsToNat s.data) else none

/-- Lower-case a string (ASCII, which is all the cron name tables need). -/
def strToLower (s : String) : String :=
  String.mk (s.data.map Char.toLower)

/-- `parseIntOrName` of `robfig/cron`: a (case-insensitive) name from the
field's table, otherwise an unsigned decimal integer. -/
def parseIntOrName (names : List (String × Nat)) (s : String) : Option Nat :=
  match names.find? (fun p => p.1 == strToLower s) with
  | some p => some p.2
  | none => strToNat s

/-- The values `start, start+step, …` up to `end_` (`getBits` of
`robfig/cron`). -/
def stepRange (start end_ step : Nat) : List Nat :=
  (List.range (end_ + 1)).filter (fun v => start ≤ v && (v - start) % step == 0)

/-- `getRange` of `robfig/cron`: one comma-separated piece of a field,
`lo`, `lo-hi`, `*`/`?`, each optionally followed by `/step`.  Returns the
matching values and the star bit, or `none` on any parse error. -/
def getRange (b : CronBounds) (expr : String) : Option (List Nat × Bool) :=
  let rangeAndStep := splitStr '/' expr
  let lowAndHigh := splitStr '-' (rangeAndStep.headD "")
  let first := lowAndHigh.headD ""
  let core : Option (Nat × Nat × Bool) :=
    if first = "*" ∨ first = "?" then some (b.lo, b.hi, true)
    else
      match lowAndHigh with
      | [lo] =>
        match parseIntOrName b.names lo with
        | some s => some (s, s, false)
        | none => none
      | [lo, hi] =>
        match parseIntOrName b.names lo, parseIntOrName b.names hi with
        | some s, some e => some (s, e, false)
        | _, _ => none
      | _ => none
  match core with
  | none => none
  | some (start, end0, star) =>
    let stepped : Option (Nat × Nat × Bool) :=
      match rangeAndStep with
      | [_] => some (1, end0, star)
      | [_, stepStr] =>
        match strToNat stepStr with
        | none => none
        | some step =>
          let end1 := if lowAndHigh.length = 1 then b.hi else end0
          some (step, end1, if step > 1 then false else star)
      | _ => none
    match stepped with
    | none => none
    | some (step, end_, star') =>
      if start < b.lo ∨ end_ > b.hi ∨ start > end_ ∨ step = 0 then none
      else some (stepRange start end_ step, star')

/-- `getField` of `robfig/cron`: a whole field is the union of its
comma-separated ranges (star bits are OR-ed together like the bits). -/
def getField (b : CronBounds) (field : String) : Option (List Nat × Bool) :=
  (splitStr ',' field).foldl
    (fun acc piece =>
      match acc, getRange b piece with
      | some (vs, st), some (vs', st') => some (vs ++ vs', st || st')
      | _, _ => none)
    (some ([], false))

/-- `Parser.Parse` of `robfig/cron` for the option set
`Minute | Hour | Dom | Month | Dow`: exactly five whitespace-separated
fields, each field parsed against its bounds; `none` on any failure
(including the empty expression and `@`-descriptors, which this option set
rejects). -/
def parseCronSchedule (spec : String) : Option CronSchedule :=
  let fields := fieldsStr spec
  match fields with
  | [mi, hr, dm, mo, dw] =>
    match getField ⟨0, 59, []⟩ mi, getField ⟨0, 23, []⟩ hr, getField ⟨1, 31, []⟩ dm,
        getField ⟨1, 12, monthNames⟩ mo, getField ⟨0, 6, dowNames⟩ dw with
    | some fmi, some fhr, some fdm, some fmo, some fdw =>
      some { minutes := fmi.1, hours := fhr.1, dom := fdm.1, months := fmo.1,
             dow := fdw.1, domStar := fdm.2, dowStar := fdw.2 }
    | _, _, _, _, _ => none
  | _ => none

/-- `dayMatches` of `robfig/cron` `spec.go`: with a starred day-of-month or
day-of-week the two day fields are AND-ed, otherwise OR-ed. -/
def cronDayMatches (s : CronSchedule) (dt : DateT) : Bool :=
  let domMatch := s.dom.contains dt.day
  let dowMatch := s.dow.contains dt.weekday
  if s.domStar || s.dowStar then domMatch && dowMatch else domMatch || dowMatch

/-- Core search of `SpecSchedule.Next`: the first minute-aligned instant
`≥ t` whose wall-clock fields all match, advancing field-by-field exactly as
the Go code truncates and increments.  The fuel models Go's five-year bail
out (`Next` returns the zero time when no match exists within the horizon);
it is large enough that the bail out is only reached by schedules with no
occurrence at all (e.g. February 30th). -/
def nextFrom (s : CronSchedule) : Nat → Nat → Option Nat
  | 0, _ => none
  | fuel + 1, t =>
    let dt := dateOfMinutes t
    if ¬ s.months.contains dt.month then nextFrom s fuel (startOfNextMonth t)
    else if ¬ cronDayMatches s dt then nextFrom s fuel (startOfNextDay t)
    else if ¬ s.hours.contains dt.hour then nextFrom s fuel (startOfNextHour t)
    else if ¬ s.minutes.contains dt.minute then nextFrom s fuel (t + 1)
    else some t

/-- Fuel for `nextFrom`, covering `robfig/cron`'s five-year search horizon. -/
def cronFuel : Nat := 200000

/-- `time.LoadLocation`, modelled as a fixed table of the fixed-offset
(no daylight saving) zones this development exercises, giving each zone's
offset from UTC in minutes; every other identifier fails to resolve. -/
def loadLocation (tz : String) : Option Int :=
  if tz = "UTC" then some 0
  else if tz = "Asia/Tokyo" then some 540
  else none

/-- `getNextRunTimeValue` of `internal/tui/model.go`.  The Go function reads
`time.Now()` internally on every call; that clock read is the explicit
argument `now` here (minutes since epoch, UTC).  An empty or unparsable
schedule yields `none` (Go: the zero `time.Time`); otherwise the next
trigger instant is computed on the wall clock of the resolved location
(fallback UTC) and returned as an absolute instant, which is what the
`Before`/`IsZero` comparisons in `updateFiltered` consume. -/
def getNextRunTimeValue (schedule timezone : String) (now : Nat) : Option Nat :=
  if schedule = "" then none
  else
    match parseCronSchedule schedule with
    | none => none
    | some sched =>
      let off : Int := if timezone = "" then 0 else (loadLocation timezone).getD 0
      let wall : Nat := (Int.ofNat now + off).toNat
      match nextFrom sched cronFuel (wall + 1) with
      | none => none
      | some w => some ((Int.ofNat w - off).toNat)

example : dateOfMinutes (19723 * 1440 + 480) =
    { year := 2024, month := 1, day := 1, hour := 8, minute := 0, weekday := 1 } := by decide
example : getNextRunTimeValue "0 9 * * *" "UTC" (19723 * 1440 + 8 * 60) =
    some (19723 * 1440 + 9 * 60) := by decide
example : getNextRunTimeValue "bogus" "UTC" 0 = none := by decide
example : getNextRunTimeValue "0 9 * * *" "Asia/Tokyo" (19723 * 1440 - 1) =
    some (19723 * 1440) := by decide
example : getNextRunTimeValue "0 9 * * *" "Asia/Tokyo" (19723 * 1440) =
    some (19724 * 1440) := by decide

/-! ## Resource Normalizer (`internal/k8s/client.go`)

Raw inputs are modelled structurally: typed Kubernetes fields keep their
names; fields the Go code reads out of `unstructured` payloads with a type
assertion (`.(string)` etc.) are `Option`-valued, `none` covering both a
missing key and a mistyped value; RFC3339 timestamp strings are modelled as
already-parsed optional instants (a string Go fails to parse is `none`). -/

/-- A Kubernetes `OwnerReference`, restricted to the fields the code reads. -/
structure OwnerReference where
  Kind : String := ""
  Name : String := ""
deriving DecidableEq, Repr

/-- `batchv1.JobStatus`, restricted to the fields the code reads. -/
structure JobStatusRaw where
  Active : Int := 0
  Succeeded : Int := 0
  Failed : Int := 0
  StartTime : Option Int := none
  CompletionTime : Option Int := none
deriving DecidableEq, Repr

/-- A `batchv1.Job`, restricted to the fields the code reads. -/
structure JobRaw where
  Name : String := ""
  Namespace : String := ""
  OwnerReferences : List OwnerReference := []
  Status : JobStatusRaw := {}
deriving DecidableEq, Repr

/-- `jobToResource` of `internal/k8s/client.go`.  `now` is the instant
`time.Since` reads from the clock. -/
def jobToResource (now : Int) (job : JobRaw) : AsyncResource :=
  let parent := job.OwnerReferences.find? (fun ref => ref.Kind == "CronJob")
  let startTime := job.Status.StartTime
  let endTime := job.Status.CompletionTime
  let duration : Int :=
    match endTime, startTime with
    | some e, some s => e - s
    | some _, none => 0
    | none, some s => now - s
    | none, none => 0
  let status : ResourceStatus :=
    if job.Status.Succeeded > 0 then .StatusSucceeded
    else if job.Status.Failed > 0 then .StatusFailed
    else if job.Status.Active > 0 then .StatusRunning
    else .StatusPending
  let retries : Int :=
    if job.Status.Succeeded > 0 then 0
    else if job.Status.Failed > 0 then job.Status.Failed
    else 0
  { Kind := .KindJob
    Name := job.Name
    Namespace := job.Namespace
    Status := status
    StartTime := startTime
    EndTime := endTime
    Duration := duration
    Retries := retries
    SuccessCount := job.Status.Succeeded
    FailureCount := job.Status.Failed
    ParentKind := match parent with | some ref => ref.Kind | none => ""
    ParentName := match parent with | some ref => ref.Name | none => "" }

/-- A `batchv1.CronJob`, restricted to the fields the code reads. -/
structure CronJobRaw where
  Name : String := ""
  Namespace : String := ""
  Schedule : String := ""
  TimeZone : Option String := none
  LastScheduleTime : Option Int := none
  LastSuccessfulTime : Option Int := none
  ActiveCount : Nat := 0
deriving DecidableEq, Repr

/-- `cronJobToResource` of `internal/k8s/client.go`. -/
def cronJobToResource (cj : CronJobRaw) : AsyncResource :=
  { Kind := .KindCronJob
    Name := cj.Name
    Namespace := cj.Namespace
    Schedule := cj.Schedule
    Status := .StatusRunning
    Timezone := match cj.TimeZone with | some tz => tz | none => ""
    LastRun := cj.LastScheduleTime
    EndTime := cj.LastSuccessfulTime }

/-- One entry of an Argo Workflow's `status.nodes` map value. -/
structure WorkflowNodeRaw where
  displayName : Option String := none
  nodeType : Option String := none
  phase : Option String := none
deriving DecidableEq, Repr

/-- The `status` object of an Argo Workflow.  `nodes` carries the map's
values in its (unspecified) Go iteration order; none of the claims below
depends on that order. -/
structure WorkflowStatusRaw where
  phase : Option String := none
  message : Option String := none
  startedAt : Option Int := none
  finishedAt : Option Int := none
  nodes : List WorkflowNodeRaw := []
deriving DecidableEq, Repr

/-- An Argo Workflow, restricted to the fields the code reads.  `status` is
`none` when the object carries no `status` map. -/
structure WorkflowRaw where
  Name : String := ""
  Namespace : String := ""
  OwnerReferences : List OwnerReference := []
  status : Option WorkflowStatusRaw := none
deriving DecidableEq, Repr

/-- `workflowToResource` of `internal/k8s/client.go`.  `now` is the instant
`time.Since` reads from the clock. -/
def workflowToResource (now : Int) (wf : WorkflowRaw) : AsyncResource :=
  let parent := wf.OwnerReferences.find? (fun ref => ref.Kind == "CronWorkflow")
  let base : AsyncResource :=
    { Kind := .KindWorkflow
      Name := wf.Name
      Namespace := wf.Namespace
      Status := .StatusUnknown
      ParentKind := match parent with | some ref => ref.Kind | none => ""
      ParentName := match parent with | some ref => ref.Name | none => "" }
  match wf.status with
  | none => base
  | some st =>
    let status : ResourceStatus :=
      match st.phase with
      | some "Running" => .StatusRunning
      | some "Succeeded" => .StatusSucceeded
      | some "Failed" => .StatusFailed
      | some "Error" => .StatusFailed
      | some "Pending" => .StatusPending
      | _ => .StatusUnknown
    let duration : Int :=
      match st.startedAt, st.finishedAt with
      | some s, some e => e - s
      | some s, none => now - s
      | none, _ => 0
    { base with
      Status := status
      Message := match st.message with | some m => m | none => ""
      StartTime := st.startedAt
      EndTime := st.finishedAt
      Duration := duration
      DAGNodes := (st.nodes.map (fun n =>
          { Name := match n.displayName with | some s => s | none => ""
            NodeType := match n.nodeType with | some s => s | none => ""
            Phase := match n.phase with | some s => s | none => "" })).filter
        (fun dn => dn.Name ≠ "") }

/-- The `spec`/`status` fields of an Argo CronWorkflow the code reads. -/
structure CronWorkflowRaw where
  Name : String := ""
  Namespace : String := ""
  schedule : Option String := none
  timezone : Option String := none
  lastScheduledTime : Option Int := none
deriving DecidableEq, Repr

/-- `cronWorkflowToResource` of `internal/k8s/client.go` (the `spec` and
`status` maps are flattened into the raw record; a missing map behaves like
all its keys missing). -/
def cronWorkflowToResource (cw : CronWorkflowRaw) : AsyncResource :=
  { Kind := .KindCronWorkflow
    Name := cw.Name
    Namespace := cw.Namespace
    Status := .StatusRunning
    Schedule := match cw.schedule with | some s => s | none => ""
    Timezone := match cw.timezone with | some s => s | none => ""
    LastRun := cw.lastScheduledTime }

/-- One entry of a Sensor's / EventSource's `status.conditions` list.  The Go
key `type` is named `condType` here because `type` is reserved in Lean;
`condStatus` is the condition's `status` value compared against `"True"`. -/
structure ConditionRaw where
  condType : String := ""
  condStatus : String := ""
  message : Option String := none
deriving DecidableEq, Repr

/-- An Argo Events Sensor or EventSource, restricted to what the code reads:
both conversions only look at `status.conditions` (a missing `status` map
behaves like an empty condition list). -/
structure SensorRaw where
  Name : String := ""
  Namespace : String := ""
  conditions : List ConditionRaw := []
deriving DecidableEq, Repr

/-- One step of the condition loop shared by `sensorToResource` and
`eventSourceToResource`: a `Ready` condition overwrites the running
(status, message) pair; other conditions leave it unchanged. -/
def applyReadyCondition (acc : ResourceStatus × String) (cond : ConditionRaw) :
    ResourceStatus × String :=
  if cond.condType == "Ready" then
    if cond.condStatus == "True" then (.StatusRunning, acc.2)
    else (.StatusFailed, match cond.message with | some m => m | none => acc.2)
  else acc

/-- `sensorToResource` of `internal/k8s/client.go`. -/
def sensorToResource (s : SensorRaw) : AsyncResource :=
  let st := s.conditions.foldl applyReadyCondition (.StatusUnknown, "")
  { Kind := .KindSensor
    Name := s.Name
    Namespace := s.Namespace
    Status := st.1
    Message := st.2 }

/-- `eventSourceToResource` of `internal/k8s/client.go`: identical condition
logic, different kind tag. -/
def eventSourceToResource (s : SensorRaw) : AsyncResource :=
  let st := s.conditions.foldl applyReadyCondition (.StatusUnknown, "")
  { Kind := .KindEventSource
    Name := s.Name
    Namespace := s.Namespace
    Status := st.1
    Message := st.2 }

/-- `ListAll` of `internal/k8s/client.go`.  Each per-family listing is an
input (`Except` models the Go `(list, err)` pair of the `List*` methods as
the caller sees it; for the four dynamic-client families the method itself
already swallows its error, which only makes those arguments' `error` case
unreachable).  `ListAll` discards every per-family error with `_` and
returns `nil` as its own error, so its result is always `Except.ok`. -/
def ListAll (jobs cronJobs workflows cronWorkflows sensors eventSources :
    Except String (List AsyncResource)) : Except String (List AsyncResource) :=
  let orEmpty : Except String (List AsyncResource) → List AsyncResource :=
    fun r => match r with | .ok l => l | .error _ => []
  .ok (orEmpty jobs ++ orEmpty cronJobs ++ orEmpty workflows ++
    orEmpty cronWorkflows ++ orEmpty sensors ++ orEmpty eventSources)

/-! ## Filter & Sort Engine and View-Model (`internal/tui/model.go`) -/

/-- `statusPriority` of `internal/tui/model.go` (the `default` arm returns
4). -/
def statusPriority : ResourceStatus → Nat
  | .StatusRunning => 0
  | .StatusFailed => 1
  | .StatusPending => 2
  | .StatusSucceeded => 3
  | .StatusUnknown => 4

/-- Lexicographic comparison of character lists by code point, a shorter
list preceding its extensions.  This is Go's `<` on strings: Go compares the
UTF-8 bytes lexicographically, and UTF-8 byte order coincides with code
point order.  (The core/Mathlib order on `String` is the same relation, but
its `Decidable` instance is not kernel-reducible, so the embedding carries
its own.) -/
def charListLt : List Char → List Char → Bool
  | [], [] => false
  | [], _ :: _ => true
  | _ :: _, [] => false
  | a :: as, b :: bs =>
    if a.toNat < b.toNat then true
    else if b.toNat < a.toNat then false
    else charListLt as bs

/-- Go's `<` on strings. -/
def strLt (a b : String) : Bool := charListLt a.data b.data

theorem charListLt_nil_right : ∀ l, charListLt l [] = false
  | [] => rfl
  | _ :: _ => rfl

theorem charListLt_irrefl : ∀ l, charListLt l l = false
  | [] => rfl
  | a :: as => by
    simp [charListLt, charListLt_irrefl as]

theorem charListLt_asym : ∀ a b, charListLt a b = true → charListLt b a = false
  | [], [], h => by simp [charListLt] at h
  | [], _ :: _, _ => rfl
  | _ :: _, [], h => by simp [charListLt] at h
  | a :: as, b :: bs, h => by
    simp only [charListLt] at h ⊢
    by_cases h1 : a.toNat < b.toNat
    · have h2 : ¬ b.toNat < a.toNat := by omega
      simp [h1, h2]
    · by_cases h2 : b.toNat < a.toNat
      · simp [h1, h2] at h
      · simp only [h1, h2, if_false] at h ⊢
        exact charListLt_asym as bs h

theorem charListLt_negtrans :
    ∀ x y z, charListLt x y = false → charListLt y z = false → charListLt x z = false
  | _, _, [], _, _ => charListLt_nil_right _
  | [], [], _ :: _, _, hyz => by simp [charListLt] at hyz
  | [], _ :: _, _ :: _, hxy, _ => by simp [charListLt] at hxy
  | _ :: _, [], _ :: _, _, hyz => by simp [charListLt] at hyz
  | a :: as, b :: bs, c :: cs, hxy, hyz => by
    simp only [charListLt] at hxy hyz ⊢
    by_cases h1 : a.toNat < b.toNat
    · simp [h1] at hxy
    · by_cases h2 : b.toNat < c.toNat
      · simp [h2] at hyz
      · have h3 : ¬ a.toNat < c.toNat := by omega
        by_cases h4 : c.toNat < a.toNat
        · simp [h3, h4]
        · have h5 : ¬ b.toNat < a.toNat := by omega
          have h6 : ¬ c.toNat < b.toNat := by omega
          simp only [h1, h2, h3, h4, h5, h6, if_false] at hxy hyz ⊢
          exact charListLt_negtrans as bs cs hxy hyz

theorem strLt_asym (a b : String) (h : strLt a b = true) : strLt b a = false :=
  charListLt_asym a.data b.data h

theorem strLt_negtrans (x y z : String) (hxy : strLt x y = false)
    (hyz : strLt y z = false) : strLt x z = false :=
  charListLt_negtrans x.data y.data z.data hxy hyz

/-- The `sort.Slice` comparator of the `SortByStatus` arm of
`updateFiltered`: status priority, then name ascending. -/
def lessByStatus (a b : AsyncResource) : Bool :=
  let pa := statusPriority a.Status
  let pb := statusPriority b.Status
  if pa ≠ pb then decide (pa < pb) else strLt a.Name b.Name

/-- The `sort.Slice` comparator of the `SortByNextRun` arm of
`updateFiltered`.  In Go each of the two `getNextRunTimeValue` calls inside
one comparator invocation reads `time.Now()` afresh; `nowI`/`nowJ` are those
two clock reads.  The zero `time.Time` is `none`. -/
def lessByNextRun (nowI nowJ : Nat) (a b : AsyncResource) : Bool :=
  let nextI := getNextRunTimeValue a.Schedule a.Timezone nowI
  let nextJ := getNextRunTimeValue b.Schedule b.Timezone nowJ
  match nextI, nextJ with
  | none, none => strLt a.Name b.Name
  | none, some _ => false
  | some _, none => true
  | some x, some y => decide (x < y)

/-- The children comparator of `updateFiltered`: start time descending
(newest first), records with a start time before records without, both
absent tie-broken by name descending. -/
def childLess (a b : AsyncResource) : Bool :=
  match a.StartTime, b.StartTime with
  | some x, some y => decide (y < x)
  | some _, none => true
  | none, some _ => false
  | none, none => strLt b.Name a.Name

/-- `sort.Slice` with the given Go comparator: the stable sort of the
total preorder `fun a b => less b a = false` (see the header note). -/
def sortSlice (less : α → α → Bool) (l : List α) : List α :=
  l.insertionSort (fun a b => less b a = false)

/-- `filterResources` of `internal/tui/model.go`. -/
def filterResources (viewMode : ViewMode) (resources : List AsyncResource) :
    List AsyncResource :=
  match viewMode with
  | .ViewAll => resources
  | .ViewJobs =>
    resources.filter (fun r => r.Kind == .KindJob || r.Kind == .KindCronJob)
  | .ViewWorkflows =>
    resources.filter (fun r => r.Kind == .KindWorkflow || r.Kind == .KindCronWorkflow)
  | .ViewEvents =>
    resources.filter (fun r => r.Kind == .KindSensor || r.Kind == .KindEventSource)

/-- The `childrenMap` key of a child record: `r.Namespace + "/" + r.ParentName`. -/
def childKeyOf (r : AsyncResource) : String := r.Namespace ++ "/" ++ r.ParentName

/-- The key a root is looked up under: `parent.Namespace + "/" + parent.Name`. -/
def parentKeyOf (r : AsyncResource) : String := r.Namespace ++ "/" ++ r.Name

/-- The records `updateFiltered` classifies as roots (empty parent
reference), in filtered order. -/
def parentsOf (filtered : List AsyncResource) : List AsyncResource :=
  filtered.filter (fun r => r.ParentName == "")

/-- The `childrenMap` entry for `key`: Go appends children in filtered
order, so the entry is exactly this sublist. -/
def childrenFor (filtered : List AsyncResource) (key : String) : List AsyncResource :=
  filtered.filter (fun r => r.ParentName ≠ "" && childKeyOf r == key)

/-- The distinct keys present in `childrenMap`. -/
def childKeysOf (filtered : List AsyncResource) : List String :=
  ((filtered.filter (fun r => r.ParentName ≠ "")).map childKeyOf).dedup

/-- The keys still in `childrenMap` after the root loop deleted every root's
key: the orphan groups.  This is the canonical (first-occurrence) order; Go
enumerates these keys in unspecified map order, so theorems quantify over
permutations of this list. -/
def remainingOrphanKeys (filtered : List AsyncResource) : List String :=
  (childKeysOf filtered).filter
    (fun k => (parentsOf filtered).all (fun p => parentKeyOf p ≠ k))

/-- The branch markers of one child group: Go marks the final child with
`"┗ "` and every earlier one with `"┣ "`. -/
def attachMarks : List AsyncResource → List (AsyncResource × String)
  | [] => []
  | [c] => [(c, "┗ ")]
  | c :: c' :: cs => (c, "┣ ") :: attachMarks (c' :: cs)

/-- The root loop of `updateFiltered`: each root row (empty marker) followed
by its sorted children; `used` models the keys already deleted from
`childrenMap`, so a second root with the same key finds no children. -/
def buildRows (filtered : List AsyncResource) :
    List AsyncResource → List String → List (AsyncResource × String)
  | [], _ => []
  | p :: ps, used =>
    let key := parentKeyOf p
    let children :=
      if used.contains key then [] else sortSlice childLess (childrenFor filtered key)
    ((p, "") :: attachMarks children) ++ buildRows filtered ps (key :: used)

/-- The orphan loop of `updateFiltered`: the groups left in `childrenMap`,
in the given enumeration order, each child with an empty marker.  (Each
group was sorted by the children-sorting loop before the root loop ran.) -/
def orphanRows (filtered : List AsyncResource) (orphanKeys : List String) :
    List (AsyncResource × String) :=
  orphanKeys.flatMap
    (fun k => (sortSlice childLess (childrenFor filtered k)).map (fun c => (c, "")))

/-- The roots in display order: the root-sorting `sort.Slice` call of
`updateFiltered` for the active sort mode.  `now` is the reference instant
of the `SortByNextRun` comparator (the model uses one shared instant for the
whole pass; the divergence of the Go code, which re-reads the clock per
comparison, is treated by the theorems about `lessByNextRun`). -/
def sortedParentsOf (resources : List AsyncResource) (viewMode : ViewMode)
    (sortMode : SortMode) (now : Nat) : List AsyncResource :=
  let parents := parentsOf (filterResources viewMode resources)
  match sortMode with
  | .SortByNextRun => sortSlice (lessByNextRun now now) parents
  | .SortByStatus => sortSlice lessByStatus parents

/-- The resolved parent/child groups: everything the root loop of
`updateFiltered` emits. -/
def mainRowsOf (resources : List AsyncResource) (viewMode : ViewMode)
    (sortMode : SortMode) (now : Nat) : List (AsyncResource × String) :=
  buildRows (filterResources viewMode resources)
    (sortedParentsOf resources viewMode sortMode now) []

/-- `updateFiltered` of `internal/tui/model.go`, producing the
(`filteredCache[i]`, `treePrefixes[i]`) pairs: the resolved groups followed
by the orphan groups.  `orphanKeys` is the map enumeration order of the
orphan groups. -/
def updateFilteredPairs (resources : List AsyncResource) (viewMode : ViewMode)
    (sortMode : SortMode) (now : Nat) (orphanKeys : List String) :
    List (AsyncResource × String) :=
  mainRowsOf resources viewMode sortMode now ++
    orphanRows (filterResources viewMode resources) orphanKeys

/-- The fields of the bubbletea `Model` the error-handling claims read. -/
structure ModelM where
  resources : List AsyncResource := []
  filteredCache : List (AsyncResource × String) := []
  err : Option String := none
  viewMode : ViewMode := .ViewAll
  sortMode : SortMode := .SortByStatus
deriving Repr

/-- The two fetch-cycle messages `Update` can receive from
`fetchResources`. -/
inductive MsgM where
  | resourcesMsg (rs : List AsyncResource)
  | errMsg (e : String)

/-- The `resourcesMsg`/`errMsg` arms of `Update` in
`internal/tui/model.go`: a successful batch replaces `resources` and
re-derives the rows (leaving `err` untouched); an error message sets `err`
(leaving everything else untouched). -/
def updateM (now : Nat) (orphanKeys : List String) (m : ModelM) (msg : MsgM) : ModelM :=
  match msg with
  | .resourcesMsg rs =>
    { m with
      resources := rs
      filteredCache := updateFilteredPairs rs m.viewMode m.sortMode now orphanKeys }
  | .errMsg e => { m with err := some e }

/-- The first branch of `View`: the error screen replaces the rendered view
exactly when `m.err != nil`. -/
def viewShowsError (m : ModelM) : Bool := m.err.isSome

example :
    (updateFilteredPairs
      [ { Kind := .KindCronJob, Name := "nightly", Namespace := "ops",
          Schedule := "0 2 * * *", Status := .StatusRunning }
      , { Kind := .KindJob, Name := "nightly-1", Namespace := "ops",
          ParentKind := "CronJob", ParentName := "nightly",
          StartTime := some 1000, Status := .StatusSucceeded }
      , { Kind := .KindJob, Name := "nightly-2", Namespace := "ops",
          ParentKind := "CronJob", ParentName := "nightly",
          StartTime := some 1060, Status := .StatusSucceeded } ]
      .ViewAll .SortByStatus 0 []).map (fun q => (q.1.Name, q.2)) =
    [("nightly", ""), ("nightly-2", "┣ "), ("nightly-1", "┗ ")] := by decide

/-! ## Infrastructure lemmas -/

theorem pairwise_sortSlice {α : Type} (less : α → α → Bool)
    (hasym : ∀ a b, less a b = true → less b a = false)
    (hneg : ∀ a b c, less b a = false → less c b = false → less c a = false)
    (l : List α) :
    List.Pairwise (fun a b => less b a = false) (sortSlice less l) := by
  haveI : IsTotal α (fun a b => less b a = false) := by
    constructor
    intro a b
    cases h : less b a with
    | false => exact Or.inl rfl
    | true => exact Or.inr (hasym b a h)
  haveI : IsTrans α (fun a b => less b a = false) := by
    constructor
    intro a b c hab hbc
    exact hneg a b c hab hbc
  exact List.sorted_insertionSort _ l

theorem mem_sortSlice {α : Type} {less : α → α → Bool} {a : α} {l : List α} :
    a ∈ sortSlice less l ↔ a ∈ l :=
  (List.perm_insertionSort _ l).mem_iff

theorem count_sortSlice {α : Type} [DecidableEq α] (less : α → α → Bool)
    (a : α) (l : List α) : (sortSlice less l).count a = l.count a :=
  (List.perm_insertionSort _ l).count_eq a

theorem attachMarks_map_fst : ∀ cs : List AsyncResource,
    (attachMarks cs).map Prod.fst = cs
  | [] => rfl
  | [_] => rfl
  | c :: c' :: cs => by
    simpa [attachMarks] using attachMarks_map_fst (c' :: cs)

theorem attachMarks_map_snd : ∀ cs : List AsyncResource, cs ≠ [] →
    (attachMarks cs).map Prod.snd = List.replicate (cs.length - 1) "┣ " ++ ["┗ "]
  | [], h => absurd rfl h
  | [_], _ => rfl
  | c :: c' :: cs, _ => by
    have ih := attachMarks_map_snd (c' :: cs) (by simp)
    simp only [attachMarks, List.map_cons, ih, List.length_cons]
    simp [List.replicate_succ]

theorem mem_childrenFor {filtered : List AsyncResource} {k : String}
    {r : AsyncResource} (h : r ∈ childrenFor filtered k) :
    r ∈ filtered ∧ r.ParentName ≠ "" ∧ childKeyOf r = k := by
  have h1 := List.mem_filter.mp h
  refine ⟨h1.1, ?_, ?_⟩
  · have := h1.2
    simp only [Bool.and_eq_true, decide_eq_true_eq, beq_iff_eq] at this
    exact this.1
  · have := h1.2
    simp only [Bool.and_eq_true, decide_eq_true_eq, beq_iff_eq] at this
    exact this.2

theorem mem_parentsOf {filtered : List AsyncResource} {p : AsyncResource}
    (h : p ∈ parentsOf filtered) : p ∈ filtered ∧ p.ParentName = "" := by
  have h1 := List.mem_filter.mp h
  exact ⟨h1.1, by simpa using h1.2⟩

theorem lessByStatus_false_iff (a b : AsyncResource) :
    lessByStatus b a = false ↔
      (statusPriority a.Status < statusPriority b.Status ∨
        (statusPriority a.Status = statusPriority b.Status
          ∧ strLt b.Name a.Name = false)) := by
  simp only [lessByStatus]
  by_cases h : statusPriority b.Status = statusPriority a.Status
  · rw [if_neg (by simp [h])]
    constructor
    · intro hh
      exact Or.inr ⟨h.symm, hh⟩
    · intro hh
      rcases hh with hlt | ⟨_, hname⟩
      · omega
      · exact hname
  · have h' : ¬ statusPriority a.Status = statusPriority b.Status := fun hh => h hh.symm
    simp only [h, ne_eq, not_false_eq_true, if_true, decide_eq_false_iff_not, not_lt,
      h', false_and, or_false]
    omega

theorem lessByStatus_asym (a b : AsyncResource) (h : lessByStatus a b = true) :
    lessByStatus b a = false := by
  simp only [lessByStatus] at h
  rw [lessByStatus_false_iff]
  by_cases hp : statusPriority a.Status = statusPriority b.Status
  · simp only [hp, ne_eq, not_true_eq_false, if_false] at h
    exact Or.inr ⟨hp, strLt_asym _ _ h⟩
  · simp only [ne_eq, hp, not_false_eq_true, if_true, decide_eq_true_eq] at h
    exact Or.inl h

theorem lessByStatus_negtrans (a b c : AsyncResource)
    (hab : lessByStatus b a = false) (hbc : lessByStatus c b = false) :
    lessByStatus c a = false := by
  rw [lessByStatus_false_iff] at hab hbc ⊢
  rcases hab with h1 | ⟨h1, h1'⟩ <;> rcases hbc with h2 | ⟨h2, h2'⟩
  · exact Or.inl (lt_trans h1 h2)
  · exact Or.inl (h2 ▸ h1)
  · exact Or.inl (h1 ▸ h2)
  · exact Or.inr ⟨h1.trans h2, strLt_negtrans _ _ _ h2' h1'⟩

theorem childLess_false_iff (a b : AsyncResource) :
    childLess b a = false ↔
      (match a.StartTime, b.StartTime with
       | some x, some y => y ≤ x
       | some _, none => True
       | none, some _ => False
       | none, none => strLt a.Name b.Name = false) := by
  simp only [childLess]
  cases ha : a.StartTime <;> cases hb : b.StartTime <;>
    simp [decide_eq_false_iff_not, not_lt]

theorem childLess_asym (a b : AsyncResource) (h : childLess a b = true) :
    childLess b a = false := by
  simp only [childLess] at h
  rw [childLess_false_iff]
  cases ha : a.StartTime <;> cases hb : b.StartTime <;>
    simp only [ha, hb, decide_eq_true_eq] at h ⊢
  all_goals first
    | trivial
    | exact le_of_lt h
    | exact strLt_asym _ _ h

theorem childLess_negtrans (a b c : AsyncResource)
    (hab : childLess b a = false) (hbc : childLess c b = false) :
    childLess c a = false := by
  rw [childLess_false_iff] at hab hbc ⊢
  cases ha : a.StartTime <;> cases hb : b.StartTime <;> cases hc : c.StartTime <;>
    simp only [ha, hb, hc] at hab hbc ⊢ <;>
    first
    | trivial
    | exact le_trans hbc hab
    | exact le_trans hab hbc
    | exact strLt_negtrans _ _ _ hab hbc

theorem lessByNextRun_false_iff (now : Nat) (a b : AsyncResource) :
    lessByNextRun now now b a = false ↔
      (match getNextRunTimeValue a.Schedule a.Timezone now,
          getNextRunTimeValue b.Schedule b.Timezone now with
       | some x, some y => x ≤ y
       | some _, none => True
       | none, some _ => False
       | none, none => strLt b.Name a.Name = false) := by
  simp only [lessByNextRun]
  cases ha : getNextRunTimeValue a.Schedule a.Timezone now <;>
    cases hb : getNextRunTimeValue b.Schedule b.Timezone now <;>
    simp [decide_eq_false_iff_not, not_lt]

theorem lessByNextRun_asym (now : Nat) (a b : AsyncResource)
    (h : lessByNextRun now now a b = true) : lessByNextRun now now b a = false := by
  simp only [lessByNextRun] at h
  rw [lessByNextRun_false_iff]
  cases ha : getNextRunTimeValue a.Schedule a.Timezone now <;>
    cases hb : getNextRunTimeValue b.Schedule b.Timezone now <;>
    simp only [ha, hb, decide_eq_true_eq] at h ⊢
  all_goals first
    | trivial
    | exact le_of_lt h
    | exact strLt_asym _ _ h

theorem lessByNextRun_negtrans (now : Nat) (a b c : AsyncResource)
    (hab : lessByNextRun now now b a = false) (hbc : lessByNextRun now now c b = false) :
    lessByNextRun now now c a = false := by
  rw [lessByNextRun_false_iff] at hab hbc ⊢
  cases ha : getNextRunTimeValue a.Schedule a.Timezone now <;>
    cases hb : getNextRunTimeValue b.Schedule b.Timezone now <;>
    cases hc : getNextRunTimeValue c.Schedule c.Timezone now <;>
    simp only [ha, hb, hc] at hab hbc ⊢ <;>
    first
    | trivial
    | exact le_trans hbc hab
    | exact le_trans hab hbc
    | exact strLt_negtrans _ _ _ hbc hab

theorem kids_not_root {filtered : List AsyncResource} {k : String} {r : AsyncResource}
    (hr : r ∈ sortSlice childLess (childrenFor filtered k)) :
    (r.ParentName == "") = false := by
  have h := (mem_childrenFor (mem_sortSlice.mp hr)).2.1
  simpa using h

theorem buildRows_roots (filtered : List AsyncResource) :
    ∀ (ps : List AsyncResource) (used : List String),
      (∀ p ∈ ps, p.ParentName = "") →
      ((buildRows filtered ps used).map Prod.fst).filter (fun r => r.ParentName == "") = ps := by
  intro ps
  induction ps with
  | nil => intro used _; rfl
  | cons p ps ih =>
    intro used h
    simp only [buildRows, List.map_append, List.map_cons, List.filter_append]
    have hkids :
        ((attachMarks (if used.contains (parentKeyOf p) then []
            else sortSlice childLess (childrenFor filtered (parentKeyOf p)))).map
          Prod.fst).filter (fun r => r.ParentName == "") = [] := by
      split
      · rfl
      · rw [attachMarks_map_fst]
        refine List.filter_eq_nil_iff.mpr ?_
        intro a ha
        simp only [Bool.not_eq_true]
        exact kids_not_root ha
    have hp : (p.ParentName == "") = true := by
      simpa using h p (List.mem_cons_self p ps)
    rw [List.filter_cons]
    simp only [hp, if_true, hkids, List.nil_append,
      ih (parentKeyOf p :: used) (fun q hq => h q (List.mem_cons_of_mem p hq))]
    rfl

theorem orphanRows_roots (filtered : List AsyncResource) (orphanKeys : List String) :
    ((orphanRows filtered orphanKeys).map Prod.fst).filter
      (fun r => r.ParentName == "") = [] := by
  refine List.filter_eq_nil_iff.mpr ?_
  intro a ha
  simp only [Bool.not_eq_true]
  rcases List.mem_map.mp ha with ⟨q, hq, rfl⟩
  rcases List.mem_flatMap.mp hq with ⟨k, _, hk⟩
  rcases List.mem_map.mp hk with ⟨c, hc, rfl⟩
  exact kids_not_root hc

theorem sortedParentsOf_root {resources : List AsyncResource} {viewMode : ViewMode}
    {sortMode : SortMode} {now : Nat} {p : AsyncResource}
    (hp : p ∈ sortedParentsOf resources viewMode sortMode now) : p.ParentName = "" := by
  unfold sortedParentsOf at hp
  cases sortMode <;>
    simpa using (mem_parentsOf (mem_sortSlice.mp hp)).2

theorem rows_roots (resources : List AsyncResource) (viewMode : ViewMode)
    (sortMode : SortMode) (now : Nat) (orphanKeys : List String) :
    ((updateFilteredPairs resources viewMode sortMode now orphanKeys).map
        Prod.fst).filter (fun r => r.ParentName == "") =
      sortedParentsOf resources viewMode sortMode now := by
  unfold updateFilteredPairs mainRowsOf
  rw [List.map_append, List.filter_append, orphanRows_roots, List.append_nil]
  exact buildRows_roots _ _ [] (fun p hp => sortedParentsOf_root hp)

/-! ## Claims -/

/-- C7: for every raw Job resource, the normalized record's status is
Succeeded if the succeeded counter is positive; otherwise Failed with the
retry count equal to the failure counter if the failed counter is positive;
otherwise Running if the active counter is positive; otherwise Pending. -/
theorem flowtop_C7_job_status (now : Int) (job : JobRaw) :
    (0 < job.Status.Succeeded → (jobToResource now job).Status = .StatusSucceeded)
    ∧ (job.Status.Succeeded ≤ 0 → 0 < job.Status.Failed →
        (jobToResource now job).Status = .StatusFailed
        ∧ (jobToResource now job).Retries = job.Status.Failed)
    ∧ (job.Status.Succeeded ≤ 0 → job.Status.Failed ≤ 0 → 0 < job.Status.Active →
        (jobToResource now job).Status = .StatusRunning)
    ∧ (job.Status.Succeeded ≤ 0 → job.Status.Failed ≤ 0 → job.Status.Active ≤ 0 →
        (jobToResource now job).Status = .StatusPending) := by
  simp only [jobToResource]
  refine ⟨fun h1 => ?_, fun h1 h2 => ?_, fun h1 h2 h3 => ?_, fun h1 h2 h3 => ?_⟩ <;>
    split_ifs <;> first | rfl | exact ⟨rfl, rfl⟩ | omega

/-- Witness for C7 at a concrete failed Job. -/
theorem flowtop_C7_job_status_witness :
    ((1:Int) ≤ 0 → False) ∧ (0:Int) < 2
    ∧ (jobToResource 0 { Status := { Failed := 2 } }).Status = .StatusFailed
    ∧ (jobToResource 0 { Status := { Failed := 2 } }).Retries = 2 := by
  refine ⟨by omega, by omega, ?_, ?_⟩
  · exact ((flowtop_C7_job_status 0 { Status := { Failed := 2 } }).2.1
      (by decide) (by decide)).1
  · exact ((flowtop_C7_job_status 0 { Status := { Failed := 2 } }).2.1
      (by decide) (by decide)).2

/-- C9 counterexample: `jobToResource` subtracts the start time from the
completion time with no clamping, so a raw Job whose completion time
precedes its start time is normalized to a strictly negative duration,
refuting the claim's unconditional non-negativity. -/
theorem flowtop_C9_counterexample :
    (jobToResource 0
        { Status := { Succeeded := 1, StartTime := some 100, CompletionTime := some 40 } }).StartTime
      = some 100
    ∧ (jobToResource 0
        { Status := { Succeeded := 1, StartTime := some 100, CompletionTime := some 40 } }).EndTime
      = some 40
    ∧ (jobToResource 0
        { Status := { Succeeded := 1, StartTime := some 100, CompletionTime := some 40 } }).Duration
      < 0 := by
  refine ⟨rfl, rfl, ?_⟩
  decide

/-- C9 (amended): for Jobs and Workflows, when both start and end time are
present the stored duration equals end minus start (hence is non-negative
whenever start ≤ end), and when the end time is absent but a start time is
present the duration is `now - start`, the wall-clock time elapsed since
start (hence non-negative whenever the start is not in the future). -/
theorem flowtop_C9_duration (now : Int) (job : JobRaw) (wf : WorkflowRaw) :
    (∀ s e, (jobToResource now job).StartTime = some s →
        (jobToResource now job).EndTime = some e →
        (jobToResource now job).Duration = e - s
        ∧ (s ≤ e → 0 ≤ (jobToResource now job).Duration))
    ∧ (∀ s, (jobToResource now job).StartTime = some s →
        (jobToResource now job).EndTime = none →
        (jobToResource now job).Duration = now - s
        ∧ (s ≤ now → 0 ≤ (jobToResource now job).Duration))
    ∧ (∀ s e, (workflowToResource now wf).StartTime = some s →
        (workflowToResource now wf).EndTime = some e →
        (workflowToResource now wf).Duration = e - s
        ∧ (s ≤ e → 0 ≤ (workflowToResource now wf).Duration))
    ∧ (∀ s, (workflowToResource now wf).StartTime = some s →
        (workflowToResource now wf).EndTime = none →
        (workflowToResource now wf).Duration = now - s
        ∧ (s ≤ now → 0 ≤ (workflowToResource now wf).Duration)) := by
  refine ⟨?_, ?_, ?_, ?_⟩
  · intro s e hs he
    simp only [jobToResource] at hs he ⊢
    rw [hs, he]
    refine ⟨by simp, fun hle => ?_⟩
    simp only [Option.some.injEq]
    omega
  · intro s hs he
    simp only [jobToResource] at hs he ⊢
    rw [hs, he]
    refine ⟨by simp, fun hle => ?_⟩
    simp only [Option.some.injEq]
    omega
  · intro s e hs he
    cases hst : wf.status with
    | none => simp only [workflowToResource, hst] at hs; exact absurd hs (by simp)
    | some st =>
      simp only [workflowToResource, hst] at hs he ⊢
      rw [hs, he]
      refine ⟨by simp, fun hle => ?_⟩
      simp only [Option.some.injEq]
      omega
  · intro s hs he
    cases hst : wf.status with
    | none => simp only [workflowToResource, hst] at hs; exact absurd hs (by simp)
    | some st =>
      simp only [workflowToResource, hst] at hs he ⊢
      rw [hs, he]
      refine ⟨by simp, fun hle => ?_⟩
      simp only [Option.some.injEq]
      omega

/-- Witness for C9 (amended) at concrete Jobs and Workflows. -/
theorem flowtop_C9_duration_witness :
    (jobToResource 50 { Status := { StartTime := some 10, CompletionTime := some 30 } }).Duration = 20
    ∧ (jobToResource 50 { Status := { Active := 1, StartTime := some 10 } }).Duration = 40
    ∧ (workflowToResource 50
        { status := some { startedAt := some 10, finishedAt := some 30 } }).Duration = 20
    ∧ (workflowToResource 50 { status := some { startedAt := some 10 } }).Duration = 40 := by
  refine ⟨?_, ?_, ?_, ?_⟩
  · exact ((flowtop_C9_duration 50
      { Status := { StartTime := some 10, CompletionTime := some 30 } } {}).1
      10 30 rfl rfl).1
  · exact ((flowtop_C9_duration 50
      { Status := { Active := 1, StartTime := some 10 } } {}).2.1 10 rfl rfl).1
  · exact ((flowtop_C9_duration 50 {}
      { status := some { startedAt := some 10, finishedAt := some 30 } }).2.2.1
      10 30 rfl rfl).1
  · exact ((flowtop_C9_duration 50 {}
      { status := some { startedAt := some 10 } }).2.2.2 10 rfl rfl).1

theorem foldl_applyReady_no_ready :
    ∀ (l : List ConditionRaw) (acc : ResourceStatus × String),
      l.filter (fun c => c.condType == "Ready") = [] →
      l.foldl applyReadyCondition acc = acc
  | [], _, _ => rfl
  | c :: l, acc, h => by
    rw [List.filter_cons] at h
    cases hc : (c.condType == "Ready") with
    | true => rw [hc] at h; simp at h
    | false =>
      rw [hc] at h
      simp only [Bool.false_eq_true, if_false] at h
      have hstep : applyReadyCondition acc c = acc := by
        simp [applyReadyCondition, hc]
      rw [List.foldl_cons, hstep]
      exact foldl_applyReady_no_ready l acc h

theorem foldl_applyReady_single :
    ∀ (l : List ConditionRaw) (acc : ResourceStatus × String) (c : ConditionRaw),
      l.filter (fun c => c.condType == "Ready") = [c] →
      l.foldl applyReadyCondition acc = applyReadyCondition acc c
  | [], _, _, h => by simp at h
  | c' :: l, acc, c, h => by
    rw [List.filter_cons] at h
    cases hc : (c'.condType == "Ready") with
    | true =>
      rw [hc] at h
      simp only [if_true, List.cons.injEq] at h
      rw [List.foldl_cons, h.1]
      exact foldl_applyReady_no_ready l _ h.2
    | false =>
      rw [hc] at h
      simp only [Bool.false_eq_true, if_false] at h
      have hstep : applyReadyCondition acc c' = acc := by
        simp [applyReadyCondition, hc]
      rw [List.foldl_cons, hstep]
      exact foldl_applyReady_single l acc c h

/-- The C10 counterexample input: two `Ready` conditions, a non-`True` one
followed by a `True` one. -/
def c10Sensor : SensorRaw :=
  { Name := "s", Namespace := "n",
    conditions :=
      [ { condType := "Ready", condStatus := "False", message := some "boom" },
        { condType := "Ready", condStatus := "True" } ] }

/-- C10 counterexample: a Sensor whose condition list carries two `Ready`
conditions, a non-`True` one followed by a `True` one, is normalized to
`Running` (the loop lets the last `Ready` condition win), refuting the
claim's "any Ready condition with another status yields Failed". -/
theorem flowtop_C10_counterexample :
    (∃ c ∈ c10Sensor.conditions, c.condType = "Ready" ∧ c.condStatus ≠ "True")
    ∧ (sensorToResource c10Sensor).Status = .StatusRunning := by
  exact ⟨by decide, by decide⟩

/-- C10 (amended): restricted to status objects with at most one condition
of type `Ready` (expressed by the two hypotheses below), the claim holds for
both Sensors and EventSources: no `Ready` condition yields `Unknown` with an
empty message; a single `Ready` condition yields `Running` when its status
is `"True"`, and otherwise `Failed` with the condition's message captured
(empty when the condition carries none).  When several `Ready` conditions
are present the last one wins instead (see the counterexample). -/
theorem flowtop_C10_ready_conditions (s : SensorRaw) :
    ((s.conditions.filter (fun c => c.condType == "Ready")) = [] →
        (sensorToResource s).Status = .StatusUnknown
        ∧ (sensorToResource s).Message = ""
        ∧ (eventSourceToResource s).Status = .StatusUnknown
        ∧ (eventSourceToResource s).Message = "")
    ∧ (∀ c, (s.conditions.filter (fun c => c.condType == "Ready")) = [c] →
        (c.condStatus = "True" →
          (sensorToResource s).Status = .StatusRunning
          ∧ (eventSourceToResource s).Status = .StatusRunning)
        ∧ (c.condStatus ≠ "True" →
          (sensorToResource s).Status = .StatusFailed
          ∧ (sensorToResource s).Message = (match c.message with | some m => m | none => "")
          ∧ (eventSourceToResource s).Status = .StatusFailed
          ∧ (eventSourceToResource s).Message
            = (match c.message with | some m => m | none => ""))) := by
  constructor
  · intro h
    have hf := foldl_applyReady_no_ready s.conditions (.StatusUnknown, "") h
    simp [sensorToResource, eventSourceToResource, hf]
  · intro c hfc
    have hf := foldl_applyReady_single s.conditions (.StatusUnknown, "") c hfc
    have hcR : (c.condType == "Ready") = true := by
      have hm : c ∈ s.conditions.filter (fun c => c.condType == "Ready") := by
        rw [hfc]; exact List.mem_singleton.mpr rfl
      exact (List.mem_filter.mp hm).2
    constructor
    · intro htrue
      have hstep : applyReadyCondition (.StatusUnknown, "") c = (.StatusRunning, "") := by
        simp [applyReadyCondition, hcR, htrue]
      simp [sensorToResource, eventSourceToResource, hf, hstep]
    · intro hfalse
      have hcS : (c.condStatus == "True") = false := by
        simpa using hfalse
      have hstep : applyReadyCondition (.StatusUnknown, "") c
          = (.StatusFailed, match c.message with | some m => m | none => "") := by
        simp only [applyReadyCondition, hcR, if_true, hcS, Bool.false_eq_true, if_false]
      simp [sensorToResource, eventSourceToResource, hf, hstep]

/-- A Sensor with a single failing `Ready` condition, for the C10 witness. -/
def c10Single : SensorRaw :=
  { Name := "s", Namespace := "n",
    conditions := [{ condType := "Ready", condStatus := "False", message := some "down" }] }

/-- An EventSource with no conditions at all, for the C10 witness. -/
def c10Empty : SensorRaw := { Name := "e", Namespace := "n" }

/-- Witness for C10 (amended) at a Sensor with one failing `Ready` condition
and at an EventSource with no conditions. -/
theorem flowtop_C10_ready_conditions_witness :
    (sensorToResource c10Single).Status = .StatusFailed
    ∧ (sensorToResource c10Single).Message = "down"
    ∧ (eventSourceToResource c10Empty).Status = .StatusUnknown := by
  refine ⟨?_, ?_, ?_⟩
  · exact (((flowtop_C10_ready_conditions c10Single).2
      { condType := "Ready", condStatus := "False", message := some "down" }
      (by decide)).2 (by decide)).1
  · exact (((flowtop_C10_ready_conditions c10Single).2
      { condType := "Ready", condStatus := "False", message := some "down" }
      (by decide)).2 (by decide)).2.1
  · exact ((flowtop_C10_ready_conditions c10Empty).1 (by decide)).2.2.1

/-- C5: a failure to list Jobs never surfaces — `ListAll` discards every
per-family error and reports success with that family simply missing — and
the error field, once set, is not cleared by a later successful refresh:
after `errMsg` followed by `resourcesMsg` the model still renders the error
screen.  Both halves contradict the claim, which promises a visible error
state on fetch failure that persists only until the next successful
refresh. -/
theorem flowtop_C5_fetch_failure (e : String)
    (cronJobs workflows cronWorkflows sensors eventSources rs : List AsyncResource)
    (m : ModelM) (now : Nat) (orphanKeys : List String) :
    ListAll (.error e) (.ok cronJobs) (.ok workflows) (.ok cronWorkflows)
        (.ok sensors) (.ok eventSources)
      = .ok (cronJobs ++ workflows ++ cronWorkflows ++ sensors ++ eventSources)
    ∧ (updateM now orphanKeys (updateM now orphanKeys m (.errMsg e))
        (.resourcesMsg rs)).err = some e
    ∧ viewShowsError (updateM now orphanKeys (updateM now orphanKeys m (.errMsg e))
        (.resourcesMsg rs)) = true := by
  exact ⟨rfl, rfl, rfl⟩

/-- A display-level orphan Workflow whose parent `p1` is absent. -/
def c1Orphan1 : AsyncResource :=
  { Kind := .KindWorkflow, Name := "w1", Namespace := "n",
    ParentKind := "CronWorkflow", ParentName := "p1" }

/-- A display-level orphan Workflow whose parent `p2` is absent. -/
def c1Orphan2 : AsyncResource :=
  { Kind := .KindWorkflow, Name := "w2", Namespace := "n",
    ParentKind := "CronWorkflow", ParentName := "p2" }

/-- C1: the orphan groups left in `childrenMap` are appended by iterating
the map, whose enumeration order Go leaves unspecified (and randomises per
iteration).  With two orphan groups, both enumeration orders of the same
remaining-key set are legitimate runs of the code, and they produce
different row sequences — so re-deriving the rows from the same resource
set, view mode, sort mode and reference instant need not reproduce the
relative order of orphan groups, contradicting the claimed idempotence.
(Everything else in the derivation is deterministic: the claim is the
spec's stated intent and the map iteration is the code's slip.) -/
theorem flowtop_C1_orphan_order :
    remainingOrphanKeys (filterResources .ViewAll [c1Orphan1, c1Orphan2]) = ["n/p1", "n/p2"]
    ∧ List.Perm ["n/p2", "n/p1"]
        (remainingOrphanKeys (filterResources .ViewAll [c1Orphan1, c1Orphan2]))
    ∧ updateFilteredPairs [c1Orphan1, c1Orphan2] .ViewAll .SortByStatus 0 ["n/p1", "n/p2"]
      ≠ updateFilteredPairs [c1Orphan1, c1Orphan2] .ViewAll .SortByStatus 0 ["n/p2", "n/p1"] := by
  refine ⟨by decide, ?_, by decide⟩
  rw [show remainingOrphanKeys (filterResources .ViewAll [c1Orphan1, c1Orphan2])
    = ["n/p1", "n/p2"] from by decide]
  exact List.Perm.swap "n/p1" "n/p2" []

/-- A CronJob firing daily at 09:00 UTC, named so it sorts first on name. -/
def c2A : AsyncResource :=
  { Kind := .KindCronJob, Name := "a", Namespace := "n", Schedule := "0 9 * * *",
    Status := .StatusRunning }

/-- A CronJob firing daily at 10:00 UTC. -/
def c2B : AsyncResource :=
  { Kind := .KindCronJob, Name := "b", Namespace := "n", Schedule := "0 10 * * *",
    Status := .StatusRunning }

/-- C2: `getNextRunTimeValue` takes no reference instant — it reads
`time.Now()` afresh inside the `sort.Slice` comparator on every call, so the
next-run key is recomputed per comparison, not once per record.  At the
clock reads 2024-01-01T08:00Z and 2024-01-01T09:30Z the comparator orders
the same two records both ways (`less a b` and `less b a` both hold), so
across clock movement it is not a stable total order; the last conjunct
shows the key itself changes between the two reads.  The claim states the
spec's explicit requirement ("must be pure with respect to its explicit now
input", key "computed once per record per refresh"), which the code does
not implement. -/
theorem flowtop_C2_clock_per_comparison :
    lessByNextRun (19723 * 1440 + 480) (19723 * 1440 + 480) c2A c2B = true
    ∧ lessByNextRun (19723 * 1440 + 570) (19723 * 1440 + 570) c2B c2A = true
    ∧ getNextRunTimeValue c2A.Schedule c2A.Timezone (19723 * 1440 + 480)
      ≠ getNextRunTimeValue c2A.Schedule c2A.Timezone (19723 * 1440 + 570) := by
  exact ⟨by decide, by decide, by decide⟩

/-- C6: under `SortByStatus` the roots of the derived rows are ordered by
the fixed priority Running(0) < Failed(1) < Pending(2) < Succeeded(3) <
Unknown(4), ties broken by name ascending: every earlier root has strictly
smaller priority, or equal priority and a name not greater than the later
root's. -/
theorem flowtop_C6_status_order (resources : List AsyncResource) (viewMode : ViewMode)
    (now : Nat) (orphanKeys : List String) :
    List.Pairwise
      (fun a b => statusPriority a.Status < statusPriority b.Status
        ∨ (statusPriority a.Status = statusPriority b.Status
            ∧ strLt b.Name a.Name = false))
      (((updateFilteredPairs resources viewMode .SortByStatus now orphanKeys).map
          Prod.fst).filter (fun r => r.ParentName == "")) := by
  rw [rows_roots]
  unfold sortedParentsOf
  exact (pairwise_sortSlice lessByStatus lessByStatus_asym lessByStatus_negtrans _).imp
    (fun h => (lessByStatus_false_iff _ _).mp h)

/-- C8: an empty schedule and an unparsable schedule both evaluate to the
"no next run" sentinel (`none`, Go's zero time) rather than an error, and
under `SortByNextRun` every root with no next run sorts after every root
with one, ties among no-next-run roots broken by name ascending. -/
theorem flowtop_C8_no_next_run (s tz : String) (now : Nat)
    (resources : List AsyncResource) (viewMode : ViewMode) (orphanKeys : List String)
    (hs : parseCronSchedule s = none) :
    getNextRunTimeValue "" tz now = none
    ∧ getNextRunTimeValue s tz now = none
    ∧ List.Pairwise
        (fun a b => getNextRunTimeValue a.Schedule a.Timezone now = none →
          getNextRunTimeValue b.Schedule b.Timezone now = none
          ∧ strLt b.Name a.Name = false)
        (((updateFilteredPairs resources viewMode .SortByNextRun now orphanKeys).map
            Prod.fst).filter (fun r => r.ParentName == "")) := by
  refine ⟨rfl, ?_, ?_⟩
  · unfold getNextRunTimeValue
    by_cases hempty : s = ""
    · simp [hempty]
    · simp [hempty, hs]
  · rw [rows_roots]
    unfold sortedParentsOf
    refine (pairwise_sortSlice (lessByNextRun now now) (lessByNextRun_asym now)
      (lessByNextRun_negtrans now) _).imp ?_
    intro a b h ha
    have h' := (lessByNextRun_false_iff now a b).mp h
    rw [ha] at h'
    cases hb : getNextRunTimeValue b.Schedule b.Timezone now with
    | none => rw [hb] at h'; exact ⟨rfl, h'⟩
    | some x => rw [hb] at h'; exact h'.elim

/-- Witness for C8: the unparsable schedule `"not a schedule"` and a
two-root batch whose no-next-run root sorts last. -/
theorem flowtop_C8_no_next_run_witness :
    parseCronSchedule "not a schedule" = none
    ∧ getNextRunTimeValue "" "UTC" 0 = none
    ∧ getNextRunTimeValue "not a schedule" "UTC" 0 = none
    ∧ List.Pairwise
        (fun a b => getNextRunTimeValue a.Schedule a.Timezone 0 = none →
          getNextRunTimeValue b.Schedule b.Timezone 0 = none
          ∧ strLt b.Name a.Name = false)
        (((updateFilteredPairs [{ Name := "x" }, c2A] .ViewAll .SortByNextRun 0 []).map
            Prod.fst).filter (fun r => r.ParentName == "")) := by
  have h := flowtop_C8_no_next_run "not a schedule" "UTC" 0
    [{ Name := "x" }, c2A] .ViewAll [] (by decide)
  exact ⟨by decide, h.1, h.2.1, h.2.2⟩

/-- A CronJob root for the C4 counterexample. -/
def c4Parent : AsyncResource :=
  { Kind := .KindCronJob, Name := "p", Namespace := "ops", Status := .StatusRunning }

/-- A child Job named `a` started at instant 100. -/
def c4ChildA : AsyncResource :=
  { Kind := .KindJob, Name := "a", Namespace := "ops", ParentKind := "CronJob",
    ParentName := "p", StartTime := some 100, Status := .StatusSucceeded }

/-- A child Job named `b` started at the same instant 100. -/
def c4ChildB : AsyncResource :=
  { Kind := .KindJob, Name := "b", Namespace := "ops", ParentKind := "CronJob",
    ParentName := "p", StartTime := some 100, Status := .StatusSucceeded }

/-- C4 counterexample: two children with equal (non-absent) start times are
not reordered by name — the comparator only consults names when both start
times are absent, so the tie is left in input order.  Here `a` precedes `b`
although name-descending, as the claim demands for every tie, would put `b`
first. -/
theorem flowtop_C4_counterexample :
    c4ChildA.StartTime = c4ChildB.StartTime
    ∧ c4ChildA.StartTime = some 100
    ∧ strLt c4ChildA.Name c4ChildB.Name = true
    ∧ updateFilteredPairs [c4Parent, c4ChildA, c4ChildB] .ViewAll .SortByStatus 0 []
      = [(c4Parent, ""), (c4ChildA, "┣ "), (c4ChildB, "┗ ")] := by
  exact ⟨rfl, rfl, by decide, by decide⟩

/-- C4 (amended): within one parent's group the children are ordered by
start time descending; a child with no start time comes after every child
with one; a tie between two children that both lack a start time is broken
by name descending (a tie between equal non-absent start times is left in
unspecified order — see the counterexample); and the final child of a
nonempty group carries the last-child marker `"┗ "` while every earlier
child carries the mid-child marker `"┣ "`. -/
theorem flowtop_C4_children_order (filtered : List AsyncResource) (k : String)
    (cs : List AsyncResource) (hcs : cs ≠ []) :
    List.Pairwise
      (fun a b =>
        (∀ x y, a.StartTime = some x → b.StartTime = some y → y ≤ x)
        ∧ (a.StartTime = none → b.StartTime = none)
        ∧ (a.StartTime = none → b.StartTime = none → strLt a.Name b.Name = false))
      (sortSlice childLess (childrenFor filtered k))
    ∧ (attachMarks cs).map Prod.fst = cs
    ∧ (attachMarks cs).map Prod.snd = List.replicate (cs.length - 1) "┣ " ++ ["┗ "] := by
  refine ⟨?_, attachMarks_map_fst cs, attachMarks_map_snd cs hcs⟩
  refine (pairwise_sortSlice childLess childLess_asym childLess_negtrans _).imp ?_
  intro a b h
  have h' := (childLess_false_iff a b).mp h
  refine ⟨?_, ?_, ?_⟩
  · intro x y hx hy
    simp only [hx, hy] at h'
    exact h'
  · intro hx
    cases hy : b.StartTime with
    | none => rfl
    | some y => simp only [hx, hy] at h'
  · intro hx hy
    simp only [hx, hy] at h'
    exact h'

/-- Witness for C4 (amended) at the concrete group of the counterexample
(plus a child with no start time, which sorts last). -/
theorem flowtop_C4_children_order_witness :
    List.Pairwise
      (fun a b =>
        (∀ x y, a.StartTime = some x → b.StartTime = some y → y ≤ x)
        ∧ (a.StartTime = none → b.StartTime = none)
        ∧ (a.StartTime = none → b.StartTime = none → strLt a.Name b.Name = false))
      (sortSlice childLess (childrenFor [c4ChildA, c4ChildB] "ops/p"))
    ∧ (attachMarks [c4ChildA, c4ChildB]).map Prod.snd = ["┣ ", "┗ "] := by
  have h := flowtop_C4_children_order [c4ChildA, c4ChildB] "ops/p"
    [c4ChildA, c4ChildB] (by simp)
  exact ⟨h.1, h.2.2⟩

theorem mem_attachMarks {cs : List AsyncResource} {q : AsyncResource × String}
    (h : q ∈ attachMarks cs) : q.1 ∈ cs := by
  have : q.1 ∈ (attachMarks cs).map Prod.fst := List.mem_map_of_mem Prod.fst h
  rwa [attachMarks_map_fst] at this

theorem mem_buildRows {filtered : List AsyncResource} :
    ∀ {ps : List AsyncResource} {used : List String} {q : AsyncResource × String},
      q ∈ buildRows filtered ps used →
      q.1 ∈ ps ∨ ∃ p ∈ ps, q.1 ∈ childrenFor filtered (parentKeyOf p) := by
  intro ps
  induction ps with
  | nil => intro used q h; exact absurd h (List.not_mem_nil q)
  | cons p ps ih =>
    intro used q h
    simp only [buildRows, List.cons_append, List.mem_cons, List.mem_append] at h
    rcases h with h | h | h
    · exact Or.inl (by rw [h]; exact List.mem_cons_self p ps)
    · have hq := mem_attachMarks h
      split at hq
      · exact absurd hq (List.not_mem_nil _)
      · exact Or.inr ⟨p, List.mem_cons_self p ps,
          mem_sortSlice.mp hq⟩
    · rcases ih h with h' | ⟨p', hp', hq⟩
      · exact Or.inl (List.mem_cons_of_mem p h')
      · exact Or.inr ⟨p', List.mem_cons_of_mem p hp', hq⟩

theorem mem_sortedParentsOf {resources : List AsyncResource} {viewMode : ViewMode}
    {sortMode : SortMode} {now : Nat} {p : AsyncResource}
    (hp : p ∈ sortedParentsOf resources viewMode sortMode now) :
    p ∈ parentsOf (filterResources viewMode resources) := by
  unfold sortedParentsOf at hp
  cases sortMode <;> exact mem_sortSlice.mp hp

theorem filter_flatMap_eq {α β : Type} (p : β → Bool) (f : α → List β) :
    ∀ l : List α, (l.flatMap f).filter p = l.flatMap (fun a => (f a).filter p)
  | [] => rfl
  | a :: l => by
    simp only [List.flatMap_cons, List.filter_append, filter_flatMap_eq p f l]

theorem flatMap_eq_nil_of {α β : Type} (f : α → List β) :
    ∀ l : List α, (∀ a ∈ l, f a = []) → l.flatMap f = []
  | [], _ => rfl
  | a :: l, h => by
    simp only [List.flatMap_cons, h a (List.mem_cons_self a l), List.nil_append]
    exact flatMap_eq_nil_of f l (fun a' ha' => h a' (List.mem_cons_of_mem a ha'))

theorem flatMap_eq_single {α β : Type} [DecidableEq α] (f : α → List β)
    (k0 : α) (v : β) (hother : ∀ k, k ≠ k0 → f k = []) (h0 : f k0 = [v]) :
    ∀ keys : List α, keys.count k0 = 1 → keys.flatMap f = [v] := by
  intro keys
  induction keys with
  | nil => intro h; simp at h
  | cons k ks ih =>
    intro hcnt
    by_cases hk : k = k0
    · subst hk
      rw [List.count_cons_self] at hcnt
      have hzero : ks.count k = 0 := by omega
      have hrest : ks.flatMap f = [] := by
        refine flatMap_eq_nil_of f ks ?_
        intro a ha
        refine hother a ?_
        intro hak
        rw [hak] at ha
        exact absurd (List.count_pos_iff.mpr ha) (by omega)
      rw [List.flatMap_cons, h0, hrest]
      rfl
    · rw [List.count_cons_of_ne (fun hh => hk hh.symm)] at hcnt
      rw [List.flatMap_cons, hother k hk, List.nil_append]
      exact ih hcnt

/-- A root whose namespace contains a slash, for the C3 counterexample. -/
def c3SlashParent : AsyncResource :=
  { Kind := .KindCronWorkflow, Name := "c", Namespace := "a/b",
    Status := .StatusRunning }

/-- A child whose parent reference resolves to no record, yet whose
concatenated grouping key collides with `c3SlashParent`'s. -/
def c3SlashChild : AsyncResource :=
  { Kind := .KindWorkflow, Name := "x", Namespace := "a",
    ParentKind := "CronWorkflow", ParentName := "b/c" }

/-- C3 counterexample: grouping matches on the concatenated string key
`namespace + "/" + parentName`, not on the (namespace, name) pair, so a
slash inside an identifier can alias another root's key.  Here no record in
the filtered set has `(Namespace, Name) = ("a", "b/c")`, yet the child is
attached under the root with namespace `"a/b"` and name `"c"` — it appears
with the last-child marker inside a resolved group, not as an orphan with an
empty marker after all groups, refuting the claim as stated. -/
theorem flowtop_C3_counterexample :
    c3SlashChild.ParentName ≠ ""
    ∧ (∀ s ∈ filterResources .ViewAll [c3SlashParent, c3SlashChild],
        ¬(s.Namespace = c3SlashChild.Namespace ∧ s.Name = c3SlashChild.ParentName))
    ∧ updateFilteredPairs [c3SlashParent, c3SlashChild] .ViewAll .SortByStatus 0
        (remainingOrphanKeys (filterResources .ViewAll [c3SlashParent, c3SlashChild]))
      = [(c3SlashParent, ""), (c3SlashChild, "┗ ")] := by
  exact ⟨by decide, by decide, by decide⟩

/-- C3 (amended): for every record of the filtered set, present exactly once
there, whose non-empty parent reference produces a grouping key
(`namespace + "/" + parentName`) that no root of the filtered set carries as
its own key (`namespace + "/" + name` — the code compares these concatenated
keys, so this is the claim's "does not resolve" hypothesis stated at key
level), the record appears exactly once in the derived rows, with an empty
branch marker, inside the orphan suffix that follows all resolved
parent/child groups; it is never dropped.  This holds for every Go map
enumeration order of the orphan groups (any permutation of the remaining
keys). -/
theorem flowtop_C3_orphan_displayed (resources : List AsyncResource)
    (viewMode : ViewMode) (sortMode : SortMode) (now : Nat) (orphanKeys : List String)
    (r : AsyncResource)
    (hchild : r.ParentName ≠ "")
    (hcount : (filterResources viewMode resources).count r = 1)
    (hnoparent : ∀ p ∈ filterResources viewMode resources,
        p.ParentName = "" → parentKeyOf p ≠ childKeyOf r)
    (hperm : orphanKeys.Perm (remainingOrphanKeys (filterResources viewMode resources))) :
    (mainRowsOf resources viewMode sortMode now).filter (fun q => q.1 == r) = []
    ∧ (updateFilteredPairs resources viewMode sortMode now orphanKeys).filter
        (fun q => q.1 == r) = [(r, "")] := by
  have hmain : (mainRowsOf resources viewMode sortMode now).filter
      (fun q => q.1 == r) = [] := by
    refine List.filter_eq_nil_iff.mpr ?_
    intro q hq hqr
    have hq1 : q.1 = r := by simpa using hqr
    rcases mem_buildRows hq with h | ⟨p, hp, hq2⟩
    · have := sortedParentsOf_root h
      rw [hq1] at this
      exact hchild this
    · have hpp := mem_parentsOf (mem_sortedParentsOf hp)
      have hk := (mem_childrenFor hq2).2.2
      rw [hq1] at hk
      exact hnoparent p hpp.1 hpp.2 hk.symm
  have h_r_mem : r ∈ filterResources viewMode resources :=
    List.count_pos_iff.mp (by omega)
  have hkey_mem : childKeyOf r ∈ remainingOrphanKeys (filterResources viewMode resources) := by
    unfold remainingOrphanKeys
    refine List.mem_filter.mpr ⟨?_, ?_⟩
    · unfold childKeysOf
      refine List.mem_dedup.mpr ?_
      refine List.mem_map_of_mem childKeyOf ?_
      exact List.mem_filter.mpr ⟨h_r_mem, by simpa using hchild⟩
    · refine List.all_eq_true.mpr ?_
      intro p hp
      have hpp := mem_parentsOf hp
      exact decide_eq_true (hnoparent p hpp.1 hpp.2)
  have hnodup : (remainingOrphanKeys (filterResources viewMode resources)).Nodup :=
    (List.nodup_dedup _).filter _
  have hcnt_keys : orphanKeys.count (childKeyOf r) = 1 := by
    rw [hperm.count_eq]
    exact List.count_eq_one_of_mem hnodup hkey_mem
  have horphan : (orphanRows (filterResources viewMode resources) orphanKeys).filter
      (fun q => q.1 == r) = [(r, "")] := by
    unfold orphanRows
    rw [filter_flatMap_eq]
    refine flatMap_eq_single _ (childKeyOf r) (r, "") ?_ ?_ orphanKeys hcnt_keys
    · intro k hk
      refine List.filter_eq_nil_iff.mpr ?_
      intro q hq hqr
      rcases List.mem_map.mp hq with ⟨c, hc, rfl⟩
      have hcr : c = r := by simpa using hqr
      have hck := (mem_childrenFor (mem_sortSlice.mp hc)).2.2
      rw [hcr] at hck
      exact hk hck.symm
    · rw [List.filter_map]
      have hcnt_children :
          (childrenFor (filterResources viewMode resources) (childKeyOf r)).count r = 1 := by
        unfold childrenFor
        rw [List.count_filter (by simp [hchild])]
        exact hcount
      have hfilter :
          (sortSlice childLess (childrenFor (filterResources viewMode resources)
            (childKeyOf r))).filter (fun c => c == r) = [r] := by
        rw [List.filter_beq, count_sortSlice, hcnt_children]
        rfl
      show ((sortSlice childLess (childrenFor (filterResources viewMode resources)
          (childKeyOf r))).filter (fun c => c == r)).map (fun c => (c, "")) = [(r, "")]
      rw [hfilter]
      rfl
  refine ⟨hmain, ?_⟩
  unfold updateFilteredPairs
  rw [List.filter_append, hmain, horphan, List.nil_append]

/-- An orphan Job whose parent `gone` is absent, for the C3 witness. -/
def c3Orphan : AsyncResource :=
  { Kind := .KindJob, Name := "x", Namespace := "ops", ParentKind := "CronJob",
    ParentName := "gone" }

/-- Witness for C3 (amended) at a one-record batch holding a single
orphan. -/
theorem flowtop_C3_orphan_displayed_witness :
    (mainRowsOf [c3Orphan] .ViewAll .SortByStatus 0).filter
        (fun q => q.1 == c3Orphan) = []
    ∧ (updateFilteredPairs [c3Orphan] .ViewAll .SortByStatus 0 ["ops/gone"]).filter
        (fun q => q.1 == c3Orphan) = [(c3Orphan, "")] := by
  refine flowtop_C3_orphan_displayed [c3Orphan] .ViewAll .SortByStatus 0 ["ops/gone"]
    c3Orphan (by decide) (by decide) (by decide) ?_
  rw [show remainingOrphanKeys (filterResources .ViewAll [c3Orphan]) = ["ops/gone"]
    from by decide]
